import Mathlib

/-!
# Verification of the technical-analysis indicator library

Shallow embedding of the indicator engine (`src/ta.py`) of the
Stock-Market-Report-Generator repository: exponential moving averages,
MACD, support/resistance extraction and linear-trend classification over
price series.

Price values are modelled as rationals (`ℚ`), exact stand-ins for the
floating-point values of the source. A price series that may contain
missing entries (pandas `NaN`) is a `List (Option ℚ)`; a series of valid
values is a `List ℚ`.
-/

namespace TA

/-- Smoothing factor of the exponential moving average for a given span:
`alpha = 2 / (span + 1)`, as used by `pandas.Series.ewm(span=span)`. -/
def alpha (span : ℕ) : ℚ := 2 / ((span : ℚ) + 1)

/-- Tail of the recursion of `ema`: given the smoothing factor `a` and the
previous output value `prev`, produce the remaining output values of the
non-bias-adjusted (`adjust=False`) exponentially weighted mean. -/
def emaRun (a : ℚ) (prev : ℚ) : List ℚ → List ℚ
  | [] => []
  | p :: ps => (p * a + prev * (1 - a)) :: emaRun a (p * a + prev * (1 - a)) ps

/-- `ema(series, span)` from `src/ta.py`: empty input returns an empty
series; otherwise `series.ewm(span=span, adjust=False).mean()`, i.e. the
recursion seeded with the first element. -/
def ema (series : List ℚ) (span : ℕ) : List ℚ :=
  match series with
  | [] => []
  | p :: ps => p :: emaRun (alpha span) p ps

/-- `macd(series, fast, slow, signal)` from `src/ta.py`: on empty input the
three outputs are empty; otherwise the MACD line is the pointwise
difference of the fast and slow EMAs, the signal line is the EMA of the
MACD line, and the histogram is their pointwise difference. -/
def macd (series : List ℚ) (fast slow signal : ℕ) :
    List ℚ × List ℚ × List ℚ :=
  if series.isEmpty then ([], [], [])
  else
    let macd_line := List.zipWith (fun a b => a - b) (ema series fast) (ema series slow)
    let signal_line := ema macd_line signal
    let hist := List.zipWith (fun a b => a - b) macd_line signal_line
    (macd_line, signal_line, hist)

/-- `series.tail(window)` of pandas: the last `window` entries of the
series (all of it when it is shorter). -/
def tailWindow {α : Type} (l : List α) (window : ℕ) : List α :=
  l.drop (l.length - window)

/-- `series.dropna()` of pandas: the valid (non-missing) entries, in
order. -/
def dropna : List (Option ℚ) → List ℚ
  | [] => []
  | none :: l => dropna l
  | some x :: l => x :: dropna l

/-- Final step of `support_resistance` in `src/ta.py`: the `(min, max)`
pair of the selected valid values, with the `(0.0, 0.0)` sentinel when no
value remains (`if w.empty: return 0.0, 0.0`). -/
def minMaxPair : List ℚ → ℚ × ℚ
  | [] => (0, 0)
  | x :: xs => (xs.foldl min x, xs.foldl max x)

/-- `support_resistance(series, window)` from `src/ta.py`: `(0.0, 0.0)` on
empty input or when the trailing window holds no valid value; otherwise
the pair `(min, max)` of `series.tail(window).dropna()`. -/
def support_resistance (series : List (Option ℚ)) (window : ℕ) : ℚ × ℚ :=
  if series.isEmpty then (0, 0)
  else minMaxPair (dropna (tailWindow series window))

/-- The closed set of trend labels `{Up, Down, Sideways}`. -/
inductive Trend : Type where
  | Up : Trend
  | Down : Trend
  | Sideways : Trend
deriving DecidableEq, Repr

/-- Least-squares slope of values `y` against the integer positions
`0..k-1`, by the closed-form normal-equations solution
`(n·Σxy − Σx·Σy) / (n·Σx² − (Σx)²)`. This models
`np.polyfit(np.arange(len(y)), y, 1)[0]` of `src/ta.py`: `polyfit` with
degree 1 computes exactly the least-squares line, whose slope coefficient
is this quotient. -/
def lsSlope (y : List ℚ) : ℚ :=
  let n : ℚ := (y.length : ℚ)
  let xs : List ℚ := (List.range y.length).map (fun i : ℕ => (i : ℚ))
  let sx := xs.sum
  let sy := y.sum
  let sxy := (List.zipWith (fun a b => a * b) xs y).sum
  let sxx := (xs.map (fun v => v * v)).sum
  (n * sxy - sx * sy) / (n * sxx - sx * sx)

/-- Regression-and-classification step of `trend_direction` in
`src/ta.py`: with fewer than two selected values return
`("Sideways", 0.0)`; otherwise label the least-squares slope of the
selected values against positions `0..k-1` by its sign relative to the
tolerance. -/
def classifySlope (y : List ℚ) (tol : ℚ) : Trend × ℚ :=
  if y.length < 2 then (Trend.Sideways, 0)
  else
    let slope := lsSlope y
    if slope > tol then (Trend.Up, slope)
    else if slope < -tol then (Trend.Down, slope)
    else (Trend.Sideways, slope)

/-- `trend_direction(series, window, tol)` from `src/ta.py`:
`("Sideways", 0.0)` on empty input, otherwise the classification of the
least-squares slope of `series.tail(window).dropna()`. -/
def trend_direction (series : List (Option ℚ)) (window : ℕ) (tol : ℚ) :
    Trend × ℚ :=
  if series.isEmpty then (Trend.Sideways, 0)
  else classifySlope (dropna (tailWindow series window)) tol

/-- Variant of `support_resistance` following the spec's wording for the
windowed selection: the trailing `window` most-recent *valid* points,
i.e. the window is selected after dropping missing values. Written to be
compared with `support_resistance`, which is embedded from the source. -/
def support_resistance_validFirst (series : List (Option ℚ)) (window : ℕ) : ℚ × ℚ :=
  if series.isEmpty then (0, 0)
  else minMaxPair (tailWindow (dropna series) window)

/-- Variant of `trend_direction` following the spec's wording for the
windowed selection: the trailing `window` most-recent *valid* points,
i.e. the window is selected after dropping missing values. Written to be
compared with `trend_direction`, which is embedded from the source. -/
def trend_direction_validFirst (series : List (Option ℚ)) (window : ℕ) (tol : ℚ) :
    Trend × ℚ :=
  if series.isEmpty then (Trend.Sideways, 0)
  else classifySlope (tailWindow (dropna series) window) tol

/-! ### Helper lemmas -/

theorem emaRun_length (a prev : ℚ) (l : List ℚ) :
    (emaRun a prev l).length = l.length := by
  induction l generalizing prev with
  | nil => rfl
  | cons p ps ih => simpa [emaRun] using ih _

theorem ema_length (series : List ℚ) (span : ℕ) :
    (ema series span).length = series.length := by
  cases series with
  | nil => rfl
  | cons p ps => simp [ema, emaRun_length]

theorem emaRun_getD_zero (a prev : ℚ) (l : List ℚ) (h : l ≠ []) :
    (emaRun a prev l).getD 0 0 = l.getD 0 0 * a + prev * (1 - a) := by
  cases l with
  | nil => exact absurd rfl h
  | cons p ps => rfl

theorem emaRun_getD_succ (a : ℚ) (l : List ℚ) :
    ∀ (prev : ℚ) (i : ℕ), i + 1 < l.length →
      (emaRun a prev l).getD (i + 1) 0 =
        l.getD (i + 1) 0 * a + (emaRun a prev l).getD i 0 * (1 - a) := by
  induction l with
  | nil => intro prev i h; simp at h
  | cons p ps ih =>
    intro prev i h
    cases i with
    | zero =>
      have hps : ps ≠ [] := by
        intro hnil
        rw [hnil] at h
        simp at h
      simpa [emaRun] using emaRun_getD_zero a (p * a + prev * (1 - a)) ps hps
    | succ j =>
      have hj : j + 1 < ps.length := by
        simpa using Nat.lt_of_succ_lt_succ h
      simpa [emaRun] using ih (p * a + prev * (1 - a)) j hj

theorem zipWith_sub_getD (l1 l2 : List ℚ) (i : ℕ) (h1 : i < l1.length)
    (h2 : i < l2.length) :
    (List.zipWith (fun a b => a - b) l1 l2).getD i 0 = l1.getD i 0 - l2.getD i 0 := by
  have hz : i < (List.zipWith (fun a b => a - b) l1 l2).length := by
    rw [List.length_zipWith]
    exact lt_min h1 h2
  rw [List.getD_eq_getElem _ _ hz, List.getD_eq_getElem _ _ h1,
    List.getD_eq_getElem _ _ h2, List.getElem_zipWith]

theorem foldl_min_le_init (xs : List ℚ) : ∀ x : ℚ, xs.foldl min x ≤ x := by
  induction xs with
  | nil => intro x; exact le_refl x
  | cons a as ih => intro x; exact le_trans (ih (min x a)) (min_le_left x a)

theorem init_le_foldl_max (xs : List ℚ) : ∀ x : ℚ, x ≤ xs.foldl max x := by
  induction xs with
  | nil => intro x; exact le_refl x
  | cons a as ih => intro x; exact le_trans (le_max_left x a) (ih (max x a))

theorem list_sum_map_range (f : ℕ → ℚ) (n : ℕ) :
    ((List.range n).map f).sum = ∑ i in Finset.range n, f i := by
  induction n with
  | zero => simp
  | succ n ih => simp [List.range_succ, ih, Finset.sum_range_succ]

theorem sum_range_id_eq (k : ℕ) :
    (∑ i in Finset.range k, (i : ℚ)) = k * (k - 1) / 2 := by
  induction k with
  | zero => simp
  | succ n ih =>
    rw [Finset.sum_range_succ, ih]
    push_cast
    ring

theorem sum_range_sq_eq (k : ℕ) :
    (∑ i in Finset.range k, (i : ℚ) * i) = k * (k - 1) * (2 * k - 1) / 6 := by
  induction k with
  | zero => simp
  | succ n ih =>
    rw [Finset.sum_range_succ, ih]
    push_cast
    ring

theorem lsSlope_map_range (f : ℕ → ℚ) (k : ℕ) :
    lsSlope ((List.range k).map f) =
      ((k : ℚ) * (∑ i in Finset.range k, (i : ℚ) * f i) -
          (∑ i in Finset.range k, (i : ℚ)) * (∑ i in Finset.range k, f i)) /
        ((k : ℚ) * (∑ i in Finset.range k, (i : ℚ) * i) -
          (∑ i in Finset.range k, (i : ℚ)) * (∑ i in Finset.range k, (i : ℚ))) := by
  have h1 : List.zipWith (fun a b => a * b)
      ((List.range k).map (fun i : ℕ => (i : ℚ))) ((List.range k).map f) =
      (List.range k).map (fun i : ℕ => (i : ℚ) * f i) := by
    rw [List.zipWith_map, List.zipWith_same]
  have h2 : ((List.range k).map (fun i : ℕ => (i : ℚ))).map (fun v => v * v) =
      (List.range k).map (fun i : ℕ => (i : ℚ) * i) := by
    rw [List.map_map]
    rfl
  simp only [lsSlope, List.length_map, List.length_range]
  rw [h1, h2]
  simp only [list_sum_map_range]

theorem lsSlope_affine (c d : ℚ) (k : ℕ) (hk : 2 ≤ k) :
    lsSlope ((List.range k).map (fun i : ℕ => c + d * (i : ℚ))) = d := by
  have hk2 : (2 : ℚ) ≤ (k : ℚ) := by exact_mod_cast hk
  have hsy : (∑ i in Finset.range k, (c + d * (i : ℚ))) =
      (k : ℚ) * c + d * ∑ i in Finset.range k, (i : ℚ) := by
    rw [Finset.sum_add_distrib, Finset.sum_const, Finset.card_range,
      ← Finset.mul_sum]
    simp [nsmul_eq_mul]
  have hsxy : (∑ i in Finset.range k, (i : ℚ) * (c + d * (i : ℚ))) =
      c * (∑ i in Finset.range k, (i : ℚ)) +
        d * ∑ i in Finset.range k, (i : ℚ) * i := by
    rw [Finset.mul_sum, Finset.mul_sum, ← Finset.sum_add_distrib]
    exact Finset.sum_congr rfl fun i _ => by ring
  have hden : ((k : ℚ) * (∑ i in Finset.range k, (i : ℚ) * i) -
      (∑ i in Finset.range k, (i : ℚ)) * (∑ i in Finset.range k, (i : ℚ))) ≠ 0 := by
    rw [sum_range_id_eq, sum_range_sq_eq]
    have heq : (k : ℚ) * ((k : ℚ) * ((k : ℚ) - 1) * (2 * (k : ℚ) - 1) / 6) -
        (k : ℚ) * ((k : ℚ) - 1) / 2 * ((k : ℚ) * ((k : ℚ) - 1) / 2) =
        (k : ℚ) * (k : ℚ) * ((k : ℚ) - 1) * ((k : ℚ) + 1) / 12 := by ring
    rw [heq]
    apply ne_of_gt
    have h1 : (0 : ℚ) < (k : ℚ) := by linarith
    have h2 : (0 : ℚ) < (k : ℚ) - 1 := by linarith
    have h3 : (0 : ℚ) < (k : ℚ) + 1 := by linarith
    have h4 : (0 : ℚ) < (12 : ℚ) := by norm_num
    exact div_pos (mul_pos (mul_pos (mul_pos h1 h1) h2) h3) h4
  rw [lsSlope_map_range, hsxy, hsy, div_eq_iff hden]
  ring

theorem lsSlope_replicate (m : ℕ) (c : ℚ) : lsSlope (List.replicate m c) = 0 := by
  have hrep : List.replicate m c = (List.range m).map (fun _ : ℕ => c) := by
    induction m with
    | zero => rfl
    | succ n ih =>
      rw [List.replicate_succ', List.range_succ, List.map_append, ih]
      rfl
  rw [hrep, lsSlope_map_range, ← Finset.sum_mul, Finset.sum_const, Finset.card_range,
    div_eq_zero_iff]
  left
  simp only [nsmul_eq_mul]
  ring

theorem dropna_map_some (l : List ℚ) : dropna (l.map some) = l := by
  induction l with
  | nil => rfl
  | cons x xs ih => simp [dropna, ih]

theorem tailWindow_map_some (l : List ℚ) (w : ℕ) :
    tailWindow (l.map some) w = (tailWindow l w).map some := by
  unfold tailWindow
  rw [List.length_map, ← List.map_drop]

theorem range_drop (n w : ℕ) (h : w ≤ n) :
    (List.range n).drop (n - w) = (List.range w).map (fun i => (n - w) + i) := by
  have hsplit : List.range n = List.range (n - w) ++ (List.range w).map ((n - w) + ·) := by
    rw [← List.range_add, Nat.sub_add_cancel h]
  rw [hsplit]
  exact List.drop_left' (by rw [List.length_range])

theorem tailWindow_length_le {α : Type} (l : List α) (w : ℕ) :
    (tailWindow l w).length ≤ w := by
  simp only [tailWindow, List.length_drop]
  omega

theorem dropna_length_le (l : List (Option ℚ)) : (dropna l).length ≤ l.length := by
  induction l with
  | nil => simp [dropna]
  | cons a l ih =>
    cases a with
    | none =>
      simp only [dropna, List.length_cons]
      omega
    | some x =>
      simp only [dropna, List.length_cons]
      omega

theorem tailWindow_of_length_le {α : Type} (l : List α) (w : ℕ) (h : l.length ≤ w) :
    tailWindow l w = l := by
  simp only [tailWindow, Nat.sub_eq_zero_of_le h, List.drop_zero]

theorem tailWindow_nil {α : Type} (w : ℕ) : tailWindow ([] : List α) w = [] := by
  simp [tailWindow]

theorem support_resistance_eq_minMaxPair (series : List (Option ℚ)) (window : ℕ) :
    support_resistance series window = minMaxPair (dropna (tailWindow series window)) := by
  cases series with
  | nil => simp [support_resistance, tailWindow_nil, dropna, minMaxPair]
  | cons q qs => simp [support_resistance]

theorem trend_direction_eq_classifySlope (series : List (Option ℚ)) (window : ℕ)
    (tol : ℚ) :
    trend_direction series window tol =
      classifySlope (dropna (tailWindow series window)) tol := by
  cases series with
  | nil => simp [trend_direction, tailWindow_nil, dropna, classifySlope]
  | cons q qs => simp [trend_direction]

theorem validFirst_support_eq (t : List (Option ℚ)) (w : ℕ) (h : t.length ≤ w) :
    support_resistance_validFirst t w = minMaxPair (dropna t) := by
  cases t with
  | nil => rfl
  | cons a as =>
    have hta : tailWindow (dropna (a :: as)) w = dropna (a :: as) :=
      tailWindow_of_length_le _ _ (le_trans (dropna_length_le _) h)
    simp [support_resistance_validFirst, hta]

theorem validFirst_trend_eq (t : List (Option ℚ)) (w : ℕ) (tol : ℚ)
    (h : t.length ≤ w) :
    trend_direction_validFirst t w tol = classifySlope (dropna t) tol := by
  cases t with
  | nil => rfl
  | cons a as =>
    have hta : tailWindow (dropna (a :: as)) w = dropna (a :: as) :=
      tailWindow_of_length_le _ _ (le_trans (dropna_length_le _) h)
    simp [trend_direction_validFirst, hta]

theorem emaRun_replicate (a c : ℚ) (m : ℕ) :
    emaRun a c (List.replicate m c) = List.replicate m c := by
  induction m with
  | zero => rfl
  | succ k ih =>
    have hc : c * a + c * (1 - a) = c := by ring
    simp only [List.replicate_succ, emaRun, hc, ih]

theorem ema_replicate (n : ℕ) (c : ℚ) (span : ℕ) :
    ema (List.replicate n c) span = List.replicate n c := by
  cases n with
  | zero => rfl
  | succ k => simp only [List.replicate_succ, ema, emaRun_replicate]

theorem zipWith_sub_self_replicate (n : ℕ) (c : ℚ) :
    List.zipWith (fun a b => a - b) (List.replicate n c) (List.replicate n c) =
      List.replicate n 0 := by
  induction n with
  | zero => rfl
  | succ k ih => simp [List.replicate_succ, ih]

theorem emaRun_one (prev : ℚ) (l : List ℚ) : emaRun 1 prev l = l := by
  induction l generalizing prev with
  | nil => rfl
  | cons p ps ih => simp [emaRun, ih]

theorem alpha_one : alpha 1 = 1 := by
  norm_num [alpha]

end TA

open TA

/-- C2: for every non-empty price series and every integer span ≥ 1, `ema`
returns a series of the same length as the input satisfying the
non-bias-adjusted recursion: the first output equals the first input, and
every later output is `input[i] * alpha + output[i-1] * (1 - alpha)` with
`alpha = 2 / (span + 1)`. -/
theorem ema_same_length_and_recursion (series : List ℚ) (span : ℕ)
    (hs : series ≠ []) (hspan : 1 ≤ span) :
    (ema series span).length = series.length ∧
    (ema series span).getD 0 0 = series.getD 0 0 ∧
    ∀ i : ℕ, i + 1 < series.length →
      (ema series span).getD (i + 1) 0 =
        series.getD (i + 1) 0 * alpha span +
          (ema series span).getD i 0 * (1 - alpha span) := by
  refine ⟨ema_length series span, ?_, ?_⟩
  · cases series with
    | nil => exact absurd rfl hs
    | cons p ps => rfl
  · intro i hi
    cases series with
    | nil => exact absurd rfl hs
    | cons p ps =>
      cases i with
      | zero =>
        have hps : ps ≠ [] := by
          intro h
          rw [h] at hi
          simp at hi
        simpa [ema] using emaRun_getD_zero (alpha span) p ps hps
      | succ j =>
        have hj : j + 1 < ps.length := by
          simpa using Nat.lt_of_succ_lt_succ hi
        simpa [ema] using emaRun_getD_succ (alpha span) ps p j hj

/-- Witness for C2: the hypotheses hold at the series `[10, 11, 12]` with
span 3, and the recursion equation holds there at index 1. -/
theorem ema_same_length_and_recursion_witness :
    ([10, 11, 12] : List ℚ) ≠ [] ∧ 1 ≤ 3 ∧
      (ema [10, 11, 12] 3).getD 1 0 =
        ([10, 11, 12] : List ℚ).getD 1 0 * alpha 3 +
          (ema [10, 11, 12] 3).getD 0 0 * (1 - alpha 3) :=
  ⟨by simp, by norm_num,
    (ema_same_length_and_recursion [10, 11, 12] 3 (by simp) (by norm_num)).2.2 0
      (by norm_num)⟩

/-- C3: for every non-empty price series and positive periods fast, slow,
signal, `macd` returns three series each of the same length as the input,
where the MACD line is the pointwise difference of the fast and slow EMAs,
the signal line is the EMA of the MACD line with the signal period, and
the histogram is the pointwise difference of MACD line and signal line. -/
theorem macd_decomposition (series : List ℚ) (fast slow signal : ℕ)
    (hs : series ≠ []) (hf : 0 < fast) (hsl : 0 < slow) (hsig : 0 < signal) :
    (macd series fast slow signal).1.length = series.length ∧
    (macd series fast slow signal).2.1.length = series.length ∧
    (macd series fast slow signal).2.2.length = series.length ∧
    (∀ i : ℕ, i < series.length →
      (macd series fast slow signal).1.getD i 0 =
        (ema series fast).getD i 0 - (ema series slow).getD i 0) ∧
    (macd series fast slow signal).2.1 = ema (macd series fast slow signal).1 signal ∧
    (∀ i : ℕ, i < series.length →
      (macd series fast slow signal).2.2.getD i 0 =
        (macd series fast slow signal).1.getD i 0 -
          (macd series fast slow signal).2.1.getD i 0) := by
  have hne : series.isEmpty = false := by
    cases series with
    | nil => exact absurd rfl hs
    | cons p ps => rfl
  have hml :
      (List.zipWith (fun a b => a - b) (ema series fast) (ema series slow)).length =
        series.length := by
    rw [List.length_zipWith, ema_length, ema_length, min_self]
  simp only [macd, hne, Bool.false_eq_true, if_false]
  refine ⟨hml, ?_, ?_, ?_, trivial, ?_⟩
  · rw [ema_length]
    exact hml
  · rw [List.length_zipWith, ema_length, hml, min_self]
  · intro i hi
    exact zipWith_sub_getD _ _ i (by rw [ema_length]; exact hi)
      (by rw [ema_length]; exact hi)
  · intro i hi
    exact zipWith_sub_getD _ _ i (by rw [hml]; exact hi)
      (by rw [ema_length, hml]; exact hi)

/-- Witness for C3: the hypotheses hold at the series `[1, 2, 4]` with the
default periods 12, 26, 9; the MACD line has the input's length and the
histogram equation holds at index 2. -/
theorem macd_decomposition_witness :
    ([1, 2, 4] : List ℚ) ≠ [] ∧ 0 < 12 ∧ 0 < 26 ∧ 0 < 9 ∧
      (macd [1, 2, 4] 12 26 9).1.length = 3 ∧
      (macd [1, 2, 4] 12 26 9).2.2.getD 2 0 =
        (macd [1, 2, 4] 12 26 9).1.getD 2 0 -
          (macd [1, 2, 4] 12 26 9).2.1.getD 2 0 := by
  have h := macd_decomposition [1, 2, 4] 12 26 9 (by simp) (by norm_num)
    (by norm_num) (by norm_num)
  exact ⟨by simp, by norm_num, by norm_num, by norm_num, by simpa using h.1,
    h.2.2.2.2.2 2 (by norm_num)⟩

/-- C9: for every non-empty price series, `ema` with span 1 returns the
input series unchanged (the smoothing factor is `2 / (1 + 1) = 1`). -/
theorem ema_span_one_identity (series : List ℚ) (hs : series ≠ []) :
    ema series 1 = series := by
  cases series with
  | nil => exact absurd rfl hs
  | cons p ps => simp [ema, alpha_one, emaRun_one]

/-- Witness for C9: the span-1 identity at the series `[10, 11, 12]`. -/
theorem ema_span_one_identity_witness :
    ema [10, 11, 12] 1 = [10, 11, 12] :=
  ema_span_one_identity [10, 11, 12] (by simp)

/-- C5: for every price series and positive window such that the trailing
window contains at least one valid (non-missing) point,
`support_resistance` returns a pair whose support component is at most its
resistance component. -/
theorem support_le_resistance (series : List (Option ℚ)) (window : ℕ)
    (hw : 0 < window) (hv : dropna (tailWindow series window) ≠ []) :
    (support_resistance series window).1 ≤ (support_resistance series window).2 := by
  have hne : series.isEmpty = false := by
    cases series with
    | nil => simp [tailWindow, dropna] at hv
    | cons p ps => rfl
  cases hd : dropna (tailWindow series window) with
  | nil => exact absurd hd hv
  | cons x xs =>
    simp only [support_resistance, hne, Bool.false_eq_true, if_false, hd]
    exact le_trans (foldl_min_le_init xs x) (init_le_foldl_max xs x)

/-- Witness for C5: the hypotheses hold at the series `[3, 1]` (no missing
values) with window 2, and support is at most resistance there. -/
theorem support_le_resistance_witness :
    0 < 2 ∧ dropna (tailWindow [some 3, some 1] 2) ≠ [] ∧
      (support_resistance [some 3, some 1] 2).1 ≤
        (support_resistance [some 3, some 1] 2).2 :=
  ⟨by norm_num, by simp [dropna, tailWindow],
    support_le_resistance [some 3, some 1] 2 (by norm_num)
      (by simp [dropna, tailWindow])⟩

/-- C10: for every price series and positive window whose trailing window
contains exactly one valid point `p`, `support_resistance` returns
`(p, p)`, not the `(0, 0)` sentinel, while `trend_direction` on the same
input falls back to `(Sideways, 0)`. -/
theorem single_valid_point_support_equals_resistance
    (series : List (Option ℚ)) (window : ℕ) (p : ℚ) (tol : ℚ) (hw : 0 < window)
    (h : dropna (tailWindow series window) = [p]) :
    support_resistance series window = (p, p) ∧
    trend_direction series window tol = (Trend.Sideways, 0) := by
  have hne : series.isEmpty = false := by
    cases series with
    | nil => simp [tailWindow, dropna] at h
    | cons q qs => rfl
  constructor
  · simp [support_resistance, hne, h, minMaxPair]
  · norm_num [trend_direction, hne, h, classifySlope]

/-- Witness for C10: the series `[missing, 7]` with window 2 has exactly
one valid point in its trailing window; support and resistance both equal
7 while the trend falls back to `(Sideways, 0)`. -/
theorem single_valid_point_support_equals_resistance_witness :
    0 < 2 ∧ dropna (tailWindow [none, some 7] 2) = [7] ∧
      support_resistance [none, some 7] 2 = (7, 7) ∧
      trend_direction [none, some 7] 2 (1 / 1000000) = (Trend.Sideways, 0) := by
  have h := single_valid_point_support_equals_resistance [none, some 7] 2 7
    (1 / 1000000) (by norm_num) (by simp [dropna, tailWindow])
  exact ⟨by norm_num, by simp [dropna, tailWindow], h.1, h.2⟩

/-- C4: every operation maps an empty input to its defined sentinel: `ema`
returns an empty series, `macd` three empty series, `support_resistance`
the pair `(0, 0)` and `trend_direction` the pair `(Sideways, 0)`; and
`support_resistance` also returns `(0, 0)` whenever the trailing window
contains only missing values. -/
theorem empty_input_sentinels :
    (∀ span : ℕ, ema [] span = []) ∧
    (∀ fast slow signal : ℕ, macd [] fast slow signal = ([], [], [])) ∧
    (∀ window : ℕ, support_resistance [] window = (0, 0)) ∧
    (∀ (window : ℕ) (tol : ℚ), trend_direction [] window tol = (Trend.Sideways, 0)) ∧
    (∀ (series : List (Option ℚ)) (window : ℕ),
      dropna (tailWindow series window) = [] →
        support_resistance series window = (0, 0)) := by
  refine ⟨fun _ => rfl, fun _ _ _ => rfl, fun _ => rfl, fun _ _ => rfl, ?_⟩
  intro series window h
  cases series with
  | nil => rfl
  | cons q qs => simp [support_resistance, h, minMaxPair]

/-- Witness for C4: the series `[missing, missing]` with window 3 has an
all-missing trailing window, and `support_resistance` returns `(0, 0)`. -/
theorem empty_input_sentinels_witness :
    dropna (tailWindow [none, none] 3) = [] ∧
      support_resistance [none, none] 3 = (0, 0) :=
  ⟨by simp [dropna, tailWindow],
    empty_input_sentinels.2.2.2.2 [none, none] 3 (by simp [dropna, tailWindow])⟩

/-- C8: on a constant series (in particular 26 identical values 5.0) every
element of the MACD line, the signal line and the histogram is exactly 0,
and `trend_direction` returns `(Sideways, 0)` for every window and
nonnegative tolerance, because the EMA of a constant series is that
constant at every index. -/
theorem constant_series_macd_zero_trend_sideways (n : ℕ) (c : ℚ)
    (fast slow signal window : ℕ) (tol : ℚ) (htol : 0 ≤ tol) :
    (∀ x ∈ (macd (List.replicate n c) fast slow signal).1, x = 0) ∧
    (∀ x ∈ (macd (List.replicate n c) fast slow signal).2.1, x = 0) ∧
    (∀ x ∈ (macd (List.replicate n c) fast slow signal).2.2, x = 0) ∧
    trend_direction (List.replicate n (some c)) window tol =
      (Trend.Sideways, 0) := by
  have hmacd : macd (List.replicate n c) fast slow signal =
      (List.replicate n 0, List.replicate n 0, List.replicate n 0) := by
    cases n with
    | zero => rfl
    | succ k =>
      have hne : (List.replicate (k + 1) c).isEmpty = false := rfl
      simp only [macd, hne, Bool.false_eq_true, if_false, ema_replicate,
        zipWith_sub_self_replicate]
  have htrend : trend_direction (List.replicate n (some c)) window tol =
      (Trend.Sideways, 0) := by
    rw [trend_direction_eq_classifySlope]
    have hmap : (List.replicate n c).map some = List.replicate n (some c) :=
      List.map_replicate
    have ht : dropna (tailWindow (List.replicate n (some c)) window) =
        List.replicate (n - (n - window)) c := by
      rw [← hmap, tailWindow_map_some, dropna_map_some]
      unfold tailWindow
      rw [List.length_replicate, List.drop_replicate]
    rw [ht]
    simp only [classifySlope]
    by_cases hlen : (List.replicate (n - (n - window)) c).length < 2
    · rw [if_pos hlen]
    · rw [if_neg hlen, lsSlope_replicate, if_neg (not_lt.mpr htol),
        if_neg (not_lt.mpr (neg_nonpos.mpr htol))]
  refine ⟨?_, ?_, ?_, htrend⟩
  · intro x hx
    rw [hmacd] at hx
    exact List.eq_of_mem_replicate hx
  · intro x hx
    rw [hmacd] at hx
    exact List.eq_of_mem_replicate hx
  · intro x hx
    rw [hmacd] at hx
    exact List.eq_of_mem_replicate hx

/-- Witness for C8: at the series of 26 identical values 5.0 with the
default MACD periods 12, 26, 9, the default trend window 10 and tolerance
`1e-6`. -/
theorem constant_series_macd_zero_trend_sideways_witness :
    (0 : ℚ) ≤ 1 / 1000000 ∧
    (∀ x ∈ (macd (List.replicate 26 (5 : ℚ)) 12 26 9).1, x = 0) ∧
    (∀ x ∈ (macd (List.replicate 26 (5 : ℚ)) 12 26 9).2.1, x = 0) ∧
    (∀ x ∈ (macd (List.replicate 26 (5 : ℚ)) 12 26 9).2.2, x = 0) ∧
    trend_direction (List.replicate 26 (some (5 : ℚ))) 10 (1 / 1000000) =
      (Trend.Sideways, 0) := by
  have h := constant_series_macd_zero_trend_sideways 26 5 12 26 9 10
    (1 / 1000000) (by norm_num)
  exact ⟨by norm_num, h.1, h.2.1, h.2.2.1, h.2.2.2⟩

/-- C6: for every price series whose selected trailing window has at least
2 valid points, `trend_direction` returns the least-squares slope of the
selected values against positions `0..k-1` as its second component, with
the label determined solely by the sign of the slope relative to the
(nonnegative) tolerance: above it Up, below its negation Down, otherwise
Sideways; with fewer than 2 valid points it returns `(Sideways, 0)`. -/
theorem trend_direction_least_squares (series : List (Option ℚ)) (window : ℕ)
    (tol : ℚ) (htol : 0 ≤ tol) :
    (2 ≤ (dropna (tailWindow series window)).length →
      (trend_direction series window tol).2 =
        lsSlope (dropna (tailWindow series window)) ∧
      (tol < lsSlope (dropna (tailWindow series window)) →
        (trend_direction series window tol).1 = Trend.Up) ∧
      (lsSlope (dropna (tailWindow series window)) < -tol →
        (trend_direction series window tol).1 = Trend.Down) ∧
      (-tol ≤ lsSlope (dropna (tailWindow series window)) →
        lsSlope (dropna (tailWindow series window)) ≤ tol →
        (trend_direction series window tol).1 = Trend.Sideways)) ∧
    ((dropna (tailWindow series window)).length < 2 →
      trend_direction series window tol = (Trend.Sideways, 0)) := by
  rw [trend_direction_eq_classifySlope]
  constructor
  · intro h2
    have hnlt : ¬ ((dropna (tailWindow series window)).length < 2) := by omega
    simp only [classifySlope, if_neg hnlt]
    set s := lsSlope (dropna (tailWindow series window)) with hs
    split_ifs with h1 h2'
    · refine ⟨rfl, fun _ => rfl, fun hd => ?_, fun ha hb => ?_⟩
      · exact absurd hd (not_lt.mpr (by linarith))
      · exact absurd h1 (not_lt.mpr hb)
    · refine ⟨rfl, fun hu => ?_, fun _ => rfl, fun ha hb => ?_⟩
      · exact absurd hu h1
      · exact absurd h2' (not_lt.mpr ha)
    · exact ⟨rfl, fun hu => absurd hu h1, fun hd => absurd hd h2', fun _ _ => rfl⟩
  · intro hlt
    simp only [classifySlope, if_pos hlt]

/-- Witness for C6: on the series `[16, 17, 18, 19, 20]` with window 5 and
tolerance `1e-6`, the trailing window has 5 ≥ 2 valid points, the returned
slope is the least-squares slope, and since that slope exceeds the
tolerance the label is Up. -/
theorem trend_direction_least_squares_witness :
    (0 : ℚ) ≤ 1 / 1000000 ∧
    2 ≤ (dropna (tailWindow ([16, 17, 18, 19, 20].map some) 5)).length ∧
    (trend_direction ([16, 17, 18, 19, 20].map some) 5 (1 / 1000000)).2 =
      lsSlope (dropna (tailWindow ([16, 17, 18, 19, 20].map some) 5)) ∧
    (trend_direction ([16, 17, 18, 19, 20].map some) 5 (1 / 1000000)).1 =
      Trend.Up := by
  have h := (trend_direction_least_squares ([16, 17, 18, 19, 20].map some) 5
    (1 / 1000000) (by norm_num)).1 (by norm_num [dropna, tailWindow])
  refine ⟨by norm_num, by norm_num [dropna, tailWindow], h.1, h.2.1 ?_⟩
  norm_num [dropna, tailWindow, lsSlope, List.range_succ]

/-- Counterexample to C1: on `[1, 2, missing]` with window 2, the code
computes over the last two raw positions `[2, missing]` and drops the
missing value afterwards, giving support = resistance = 2; selecting the
window after dropping missing values would compute over `[1, 2]` and give
`(1, 2)`. On `[0, 10, missing, 1]` with window 3 the two selection orders
even yield opposite trend labels. -/
theorem windowed_selection_counterexample :
    support_resistance [some 1, some 2, none] 2 = (2, 2) ∧
    support_resistance_validFirst [some 1, some 2, none] 2 = (1, 2) ∧
    trend_direction [some 0, some 10, none, some 1] 3 (1 / 1000000) =
      (Trend.Down, -9) ∧
    trend_direction_validFirst [some 0, some 10, none, some 1] 3 (1 / 1000000) =
      (Trend.Up, 1 / 2) ∧
    ((2 : ℚ), (2 : ℚ)) ≠ ((1 : ℚ), (2 : ℚ)) := by
  refine ⟨?_, ?_, ?_, ?_, ?_⟩
  · norm_num [support_resistance, tailWindow, dropna, minMaxPair]
  · norm_num [support_resistance_validFirst, tailWindow, dropna, minMaxPair]
  · norm_num [trend_direction, tailWindow, dropna, classifySlope, lsSlope,
      List.range_succ]
  · norm_num [trend_direction_validFirst, tailWindow, dropna, classifySlope,
      lsSlope, List.range_succ]
  · norm_num [Prod.ext_iff]

/-- C1 amended: the windowed operations `support_resistance` and
`trend_direction` compute over the last `window` raw positions of the
series with missing values dropped afterwards; equivalently, each equals
the after-dropping (valid-first) selection applied to the raw trailing
window. -/
theorem windowed_selection_amended (series : List (Option ℚ)) (window : ℕ)
    (tol : ℚ) :
    support_resistance series window =
      support_resistance_validFirst (tailWindow series window) window ∧
    trend_direction series window tol =
      trend_direction_validFirst (tailWindow series window) window tol := by
  constructor
  · rw [support_resistance_eq_minMaxPair,
      validFirst_support_eq _ _ (tailWindow_length_le series window)]
  · rw [trend_direction_eq_classifySlope,
      validFirst_trend_eq _ _ tol (tailWindow_length_le series window)]

/-- Counterexample to C7's general clause: `[0, 1e-7]` is a strictly
increasing linear series of length 2 ≥ window 2, but with the default
tolerance `1e-6` the computed slope `1e-7` does not exceed the tolerance,
so the label is Sideways, not Up. -/
theorem linear_up_counterexample :
    trend_direction [some 0, some (1 / 10000000)] 2 (1 / 1000000) =
      (Trend.Sideways, 1 / 10000000) ∧
    (Trend.Sideways : Trend) ≠ Trend.Up := by
  constructor
  · norm_num [trend_direction, tailWindow, dropna, classifySlope, lsSlope,
      List.range_succ]
  · decide

/-- C7 amended: on `[10, 11, ..., 20]` with window 5, support is 16.0,
resistance is 20.0 and the trend is Up with slope exactly 1; and in
general a strictly increasing linear series whose increment d exceeds the
tolerance, of length at least the window with window ≥ 2, yields label Up
with slope d > 0. -/
theorem example_series_and_linear_up (c d : ℚ) (n window : ℕ) (tol : ℚ)
    (htol : 0 ≤ tol) (hd : tol < d) (hw : 2 ≤ window) (hn : window ≤ n) :
    support_resistance ([10, 11, 12, 13, 14, 15, 16, 17, 18, 19, 20].map some) 5 =
      (16, 20) ∧
    trend_direction ([10, 11, 12, 13, 14, 15, 16, 17, 18, 19, 20].map some) 5
      (1 / 1000000) = (Trend.Up, 1) ∧
    trend_direction ((List.range n).map (fun i : ℕ => some (c + d * (i : ℚ))))
      window tol = (Trend.Up, d) := by
  refine ⟨?_, ?_, ?_⟩
  · norm_num [support_resistance, tailWindow, dropna, minMaxPair]
  · norm_num [trend_direction, tailWindow, dropna, classifySlope, lsSlope,
      List.range_succ]
  · have hser : (List.range n).map (fun i : ℕ => some (c + d * (i : ℚ))) =
        ((List.range n).map (fun i : ℕ => c + d * (i : ℚ))).map some := by
      rw [List.map_map]
      rfl
    rw [hser, trend_direction_eq_classifySlope, tailWindow_map_some,
      dropna_map_some]
    have hy : tailWindow ((List.range n).map (fun i : ℕ => c + d * (i : ℚ)))
        window =
        (List.range window).map
          (fun i : ℕ => (c + d * ((n - window : ℕ) : ℚ)) + d * (i : ℚ)) := by
      unfold tailWindow
      rw [List.length_map, List.length_range, ← List.map_drop,
        range_drop n window hn, List.map_map]
      have hfun : ((fun i : ℕ => c + d * (i : ℚ)) ∘ fun i : ℕ => n - window + i) =
          fun i : ℕ => (c + d * ((n - window : ℕ) : ℚ)) + d * (i : ℚ) := by
        funext i
        simp only [Function.comp]
        push_cast
        ring
      rw [hfun]
    rw [hy]
    simp only [classifySlope]
    have hlen : ¬ (((List.range window).map
        (fun i : ℕ => (c + d * ((n - window : ℕ) : ℚ)) + d * (i : ℚ))).length <
          2) := by
      rw [List.length_map, List.length_range]
      omega
    rw [if_neg hlen, lsSlope_affine _ d window hw, if_pos hd]

/-- Witness for C7 amended: the general clause at the linear series
`0 + 1·i` over `i = 0..4` with window 2 and tolerance `1e-6`: the label is
Up with slope 1. -/
theorem example_series_and_linear_up_witness :
    ((0 : ℚ) ≤ 1 / 1000000 ∧ (1 / 1000000 : ℚ) < 1 ∧ 2 ≤ 2 ∧ 2 ≤ 5) ∧
    trend_direction ((List.range 5).map (fun i : ℕ => some ((0 : ℚ) + 1 * (i : ℚ))))
      2 (1 / 1000000) = (Trend.Up, 1) :=
  ⟨⟨by norm_num, by norm_num, le_refl 2, by norm_num⟩,
    (example_series_and_linear_up 0 1 5 2 (1 / 1000000) (by norm_num)
      (by norm_num) (le_refl 2) (by norm_num)).2.2⟩
